import Mathlib

/-!
Verification of the port matching / merge / canonicalization engine of
`platforms/scripts/platmgr/tools/afu_platform_config.py`.

Python dictionaries are modelled as association lists that keep insertion
order (as Python dicts do); `alookup`, `aset` and `aerase` mirror
`d[k]` / `k in d`, `d[k] = v` and `d.pop(k)` on dictionaries whose keys
are unique.
-/

namespace AfuPlatformConfig

/-- Association-list lookup, mirroring `d[k]` / `k in d` on a Python dict. -/
def alookup {κ α : Type} [DecidableEq κ] : List (κ × α) → κ → Option α
  | [], _ => none
  | (k, v) :: t, q => if k = q then some v else alookup t q

/-- Association-list store, mirroring `d[k] = v` on a Python dict: an
existing key keeps its position, a new key is appended at the end. -/
def aset {κ α : Type} [DecidableEq κ] : List (κ × α) → κ → α → List (κ × α)
  | [], q, v => [(q, v)]
  | (k, w) :: t, q, v => if k = q then (k, v) :: t else (k, w) :: aset t q v

/-- Association-list removal, mirroring `d.pop(k)` on a Python dict. -/
def aerase {κ α : Type} [DecidableEq κ] : List (κ × α) → κ → List (κ × α)
  | [], _ => []
  | (k, w) :: t, q => if k = q then t else (k, w) :: aerase t q

/-- Keys of a Python dict are unique; association lists modelling dicts
satisfy this invariant. -/
def nodupKeys {κ α : Type} (d : List (κ × α)) : Prop :=
  (d.map Prod.fst).Nodup

theorem alookup_aset_self {κ α : Type} [DecidableEq κ]
    (d : List (κ × α)) (q : κ) (v : α) : alookup (aset d q v) q = some v := by
  induction d with
  | nil => simp [aset, alookup]
  | cons p t ih =>
    obtain ⟨k, w⟩ := p
    by_cases h : k = q <;> simp [aset, alookup, h, ih]

theorem alookup_aset_ne {κ α : Type} [DecidableEq κ]
    (d : List (κ × α)) (q : κ) (v : α) (k : κ) (h : q ≠ k) :
    alookup (aset d q v) k = alookup d k := by
  induction d with
  | nil => simp [aset, alookup, fun hq => h hq]
  | cons p t ih =>
    obtain ⟨k', w⟩ := p
    by_cases h' : k' = q
    · subst h'
      simp [aset, alookup, h]
    · simp [aset, alookup, h', ih]

theorem alookup_eq_none_of_not_mem {κ α : Type} [DecidableEq κ]
    (d : List (κ × α)) (q : κ) (h : q ∉ d.map Prod.fst) :
    alookup d q = none := by
  induction d with
  | nil => rfl
  | cons p t ih =>
    obtain ⟨k, w⟩ := p
    simp only [List.map_cons, List.mem_cons] at h
    push_neg at h
    simp only [alookup]
    rw [if_neg (fun hq => h.1 hq.symm)]
    exact ih h.2

theorem alookup_aerase_ne {κ α : Type} [DecidableEq κ]
    (d : List (κ × α)) (q : κ) (k : κ) (h : q ≠ k) :
    alookup (aerase d q) k = alookup d k := by
  induction d with
  | nil => rfl
  | cons p t ih =>
    obtain ⟨k', w⟩ := p
    by_cases h' : k' = q
    · subst h'
      simp [aerase, alookup, h]
    · simp [aerase, alookup, h', ih]

theorem alookup_aerase_self {κ α : Type} [DecidableEq κ]
    (d : List (κ × α)) (q : κ) (h : nodupKeys d) :
    alookup (aerase d q) q = none := by
  induction d with
  | nil => rfl
  | cons p t ih =>
    obtain ⟨k, w⟩ := p
    simp only [nodupKeys, List.map_cons, List.nodup_cons] at h
    by_cases h' : k = q
    · subst h'
      simp [aerase, alookup_eq_none_of_not_mem t k h.1]
    · simp [aerase, alookup, h', ih h.2]

theorem mem_keys_aset {κ α : Type} [DecidableEq κ]
    (d : List (κ × α)) (q : κ) (v : α) (x : κ) :
    x ∈ (aset d q v).map Prod.fst ↔ x ∈ d.map Prod.fst ∨ x = q := by
  induction d with
  | nil => simp [aset]
  | cons p t ih =>
    obtain ⟨k, w⟩ := p
    by_cases h : k = q
    · subst h
      simp [aset]
      tauto
    · simp only [aset, if_neg h, List.map_cons, List.mem_cons, ih]
      tauto

theorem nodupKeys_aset {κ α : Type} [DecidableEq κ]
    (d : List (κ × α)) (q : κ) (v : α) (h : nodupKeys d) :
    nodupKeys (aset d q v) := by
  induction d with
  | nil => simp [nodupKeys, aset]
  | cons p t ih =>
    obtain ⟨k, w⟩ := p
    simp only [nodupKeys, List.map_cons, List.nodup_cons] at h
    by_cases h' : k = q
    · subst h'
      simpa [nodupKeys, aset] using h
    · have hk : k ∉ (aset t q v).map Prod.fst := by
        rw [mem_keys_aset]
        rintro (hm | hm)
        · exact h.1 hm
        · exact h' hm
      simpa [nodupKeys, aset, h', hk] using ih h.2

theorem keys_aerase_sublist {κ α : Type} [DecidableEq κ]
    (d : List (κ × α)) (q : κ) :
    ((aerase d q).map Prod.fst).Sublist (d.map Prod.fst) := by
  induction d with
  | nil => simp [aerase]
  | cons p t ih =>
    obtain ⟨k, w⟩ := p
    by_cases h : k = q
    · simp only [aerase, if_pos h, List.map_cons]
      exact List.sublist_cons_self _ _
    · simp only [aerase, if_neg h, List.map_cons]
      exact ih.cons₂ k

theorem nodupKeys_aerase {κ α : Type} [DecidableEq κ]
    (d : List (κ × α)) (q : κ) (h : nodupKeys d) :
    nodupKeys (aerase d q) :=
  (keys_aerase_sublist d q).nodup h

/-! ## Matching engine (`matchAfuPorts`)

A requirement port (`afu_ifc_db['module-ports']` value) and an offered port
(`platform_db['module-ports-offered']` value) are modelled with the fields
`matchAfuPorts` reads.  `sys.maxsize` is the 64-bit sentinel. -/

/-- `sys.maxsize` on a 64-bit CPython, used by the code as the
"no explicit maximum" sentinel for `max-entries`. -/
def sysMaxsize : Nat := 9223372036854775807

/-- A requirement port as read by `matchAfuPorts`: fields `class`,
`interface`, `vector`, `optional`, `min-entries`, `max-entries` and the
optional `default-entries`. -/
structure ReqPort where
  cls : String
  interface : String
  vector : Bool
  optional : Bool
  minEntries : Nat
  maxEntries : Nat
  defaultEntries : Option Nat
deriving DecidableEq

/-- An offered port as read by `matchAfuPorts`: fields `class`,
`interface`, `vector`, `min-entries`, `max-entries` and the optional
`default-entries`. -/
structure OffPort where
  cls : String
  interface : String
  vector : Bool
  minEntries : Nat
  maxEntries : Nat
  defaultEntries : Option Nat
deriving DecidableEq

/-- The value appended to `afu_ports`: the requirement port, the matched
platform port and, for vectors, the resolved `num-entries`. -/
structure AfuMatch where
  afu : ReqPort
  plat : OffPort
  numEntries : Option Nat
deriving DecidableEq

/-- The fatal diagnostics `matchAfuPorts` can raise via `errorExit`. -/
inductive MatchErr where
  | unsatisfiedRequirement (afuName cls ifc platName : String)
  | vectorMismatchReqVector (afuName cls ifc platName : String)
  | vectorMismatchPlatVector (afuName cls ifc platName : String)
  | insufficientReqMin (afuName cls ifc platName : String)
  | insufficientPlatMin (afuName cls ifc platName : String)
deriving DecidableEq

/-- `('default-entries' in port) and (port['default-entries'] >= lo) and
(port['default-entries'] <= hi)`. -/
def defaultWithin (d : Option Nat) (lo hi : Nat) : Bool :=
  match d with
  | some n => decide (lo ≤ n) && decide (n ≤ hi)
  | none => false

/-- `('default-entries' in plat_match) and
(plat_match['default-entries'] >= lo)`. -/
def defaultAtLeast (d : Option Nat) (lo : Nat) : Bool :=
  match d with
  | some n => decide (lo ≤ n)
  | none => false

/-- The initial `entries` value of the vector-vector branch of
`matchAfuPorts` (lines 132-143): requirement default if the requirement
max is the sentinel and the default fits the platform window, else the
platform default if the requirement max is the sentinel and the platform
default reaches the requirement minimum, else the platform maximum.
The `getD 0` arms are unreachable: each guard requires the `Option` to be
`some`. -/
def pickEntries (port : ReqPort) (plat : OffPort) : Nat :=
  if port.maxEntries == sysMaxsize &&
      defaultWithin port.defaultEntries plat.minEntries plat.maxEntries then
    port.defaultEntries.getD 0
  else if port.maxEntries == sysMaxsize &&
      defaultAtLeast plat.defaultEntries port.minEntries then
    plat.defaultEntries.getD 0
  else
    plat.maxEntries

/-- `entries` after the clamp at lines 146-147: reduced to the
requirement's `max-entries` when it exceeds it. -/
def resolvedEntries (port : ReqPort) (plat : OffPort) : Nat :=
  if pickEntries port plat > port.maxEntries then port.maxEntries
  else pickEntries port plat

/-- The vector-vector branch of `matchAfuPorts` (lines 128-163): resolve
the entry count, then check both lower bounds. -/
def matchVector (afuName platName : String) (port : ReqPort) (plat : OffPort) :
    Except MatchErr Nat :=
  if resolvedEntries port plat < port.minEntries then
    .error (.insufficientReqMin afuName port.cls port.interface platName)
  else if resolvedEntries port plat < plat.minEntries then
    .error (.insufficientPlatMin afuName port.cls port.interface platName)
  else
    .ok (resolvedEntries port plat)

/-- `plat_key = port['class'] + '/' + port['interface']`. -/
def portKey (port : ReqPort) : String :=
  port.cls ++ "/" ++ port.interface

/-- One iteration of the `matchAfuPorts` loop body for a requirement
`port`: `.ok none` means no match recorded and no error (unmatched
optional port), `.ok (some m)` means `m` is appended to `afu_ports`. -/
def matchPort (afuName platName : String) (offered : List (String × OffPort))
    (port : ReqPort) : Except MatchErr (Option AfuMatch) :=
  match alookup offered (portKey port) with
  | none =>
    if port.optional then .ok none
    else .error (.unsatisfiedRequirement afuName port.cls port.interface platName)
  | some plat =>
    if !port.vector && !plat.vector then
      .ok (some ⟨port, plat, none⟩)
    else if port.vector && !plat.vector then
      .error (.vectorMismatchReqVector afuName port.cls port.interface platName)
    else if !port.vector && plat.vector then
      .error (.vectorMismatchPlatVector afuName port.cls port.interface platName)
    else
      match matchVector afuName platName port plat with
      | .error e => .error e
      | .ok n => .ok (some ⟨port, plat, some n⟩)

/-- `matchAfuPorts`: walk the requirement ports in the order of
`list(afu_ifc_db['module-ports'].values())` (dict insertion order) and
collect the matches; `errorExit` aborts the whole run at the first
failing port. -/
def matchAfuPorts (afuName platName : String)
    (offered : List (String × OffPort)) : List ReqPort → Except MatchErr (List AfuMatch)
  | [] => .ok []
  | port :: rest =>
    match matchPort afuName platName offered port with
    | .error e => .error e
    | .ok none => matchAfuPorts afuName platName offered rest
    | .ok (some m) =>
      match matchAfuPorts afuName platName offered rest with
      | .error e => .error e
      | .ok ms => .ok (m :: ms)

/-! ## Merge engine (`injectAfuIfcChanges`) -/

/-- A JSON scalar value appearing in a `module-ports` record field. -/
inductive JVal where
  | jstr (s : String)
  | jnat (n : Nat)
  | jbool (b : Bool)
deriving DecidableEq

/-- One override/extension record from the AFU JSON's
`afu-image:afu-top-interface:module-ports` list: a Python dict in field
insertion order. -/
abbrev FieldRec := List (String × JVal)

/-- `afu_ifc_db['module-ports']`: a dict from class value to port record. -/
abbrev PortMap := List (JVal × FieldRec)

/-- Fields in the AFU interface that may be updated by a particular AFU's
JSON file (`legal_afu_ifc_update_classes`). -/
def legal_afu_ifc_update_classes : List String :=
  ["default-entries", "max-entries", "min-entries", "optional", "params"]

/-- The fatal diagnostics `injectAfuIfcChanges` can raise via `errorExit`. -/
inductive MergeErr where
  | missingClass (fname : String)
  | missingInterface (fname : String)
  | unauthorizedOverride (c : JVal) (k : String) (fname : String)
deriving DecidableEq

/-- `afu_ifc_db['module-ports'][c][k] = port[k]`. -/
def updatePortField (db : PortMap) (c : JVal) (k : String) (v : JVal) : PortMap :=
  aset db c (aset ((alookup db c).getD []) k v)

/-- The override loop of `injectAfuIfcChanges` (lines 319-335): walk the
record's fields in order, skip `class`, apply allow-listed fields in
place, and abort at the first field outside the allow-list.  The result
carries the port map as mutated up to the point of the error, because the
Python code updates the shared dict field by field before `errorExit`
terminates the process. -/
def applyOverrideFields (fname : String) (c : JVal) (db : PortMap) :
    List (String × JVal) → Option MergeErr × PortMap
  | [] => (none, db)
  | (k, v) :: rest =>
    if k = "class" then applyOverrideFields fname c db rest
    else if k ∈ legal_afu_ifc_update_classes then
      applyOverrideFields fname c (updatePortField db c k v) rest
    else
      (some (.unauthorizedOverride c k fname), db)

/-- One iteration of the `injectAfuIfcChanges` record loop (lines
294-335): records without `class` fail; a class absent from the base set
is an extension and must carry `interface`; a class already present is an
override restricted to the allow-list. -/
def injectOneChange (fname : String) (db : PortMap) (port : FieldRec) :
    Option MergeErr × PortMap :=
  match alookup port "class" with
  | none => (some (.missingClass fname), db)
  | some c =>
    match alookup db c with
    | none =>
      match alookup port "interface" with
      | none => (some (.missingInterface fname), db)
      | some _ => (none, aset db c port)
    | some _ => applyOverrideFields fname c db port

/-- `injectAfuIfcChanges` over the whole `module-ports` record list; the
first error aborts the run, carrying the port map as mutated so far. -/
def injectAfuIfcChanges (fname : String) (db : PortMap) :
    List FieldRec → Option MergeErr × PortMap
  | [] => (none, db)
  | port :: rest =>
    match injectOneChange fname db port with
    | (some e, db1) => (some e, db1)
    | (none, db1) => injectAfuIfcChanges fname db1 rest

/-- The `class` value of an override/extension record. -/
def classOf (r : FieldRec) : Option JVal :=
  alookup r "class"

/-! ## Canonicalization (legacy cleanup in `getAfuIfc`, lines 228-236) -/

/-- `if (old in d): d[new] = d.pop(old)` — one legacy-rename step of
`getAfuIfc` (`pop` runs first, then the assignment). -/
def renameKey {α : Type} (d : List (String × α)) (old new : String) :
    List (String × α) :=
  match alookup d old with
  | some v => aset (aerase d old) new v
  | none => d

/-- The legacy-name cleanup of `getAfuIfc`: pop `module-arguments` into
`module-ports` when present, then pop `name` into `class` when present.
Generic in the value type, since the renaming never inspects values. -/
def legacyCleanAfuIfc {α : Type} (d : List (String × α)) : List (String × α) :=
  renameKey (renameKey d "module-arguments" "module-ports") "name" "class"

/-! ## Theorems about the matching engine -/

/-- Claim C4: a requirement port whose compound key has no entry in the
offering set is skipped without error or match when optional, and
otherwise fails with an UnsatisfiedRequirement error naming the
requirement's owner, the missing class and interface, and the offering
set's name. -/
theorem c4_unsatisfied_requirement (afuName platName : String)
    (offered : List (String × OffPort)) (port : ReqPort) (rest : List ReqPort)
    (hmiss : alookup offered (portKey port) = none) :
    (port.optional = true → matchPort afuName platName offered port = .ok none) ∧
    (port.optional = true →
      matchAfuPorts afuName platName offered (port :: rest) =
        matchAfuPorts afuName platName offered rest) ∧
    (port.optional = false → matchPort afuName platName offered port =
      .error (.unsatisfiedRequirement afuName port.cls port.interface platName)) := by
  have h1 : port.optional = true → matchPort afuName platName offered port = .ok none := by
    intro h
    unfold matchPort
    rw [hmiss]
    simp [h]
  refine ⟨h1, ?_, ?_⟩
  · intro h
    simp [matchAfuPorts, h1 h]
  · intro h
    unfold matchPort
    rw [hmiss]
    simp [h]

/-- Witness for C4 at a concrete optional and a concrete mandatory port. -/
theorem c4_unsatisfied_requirement_witness :
    matchPort "afu" "plat" [] ⟨"c", "i", false, true, 0, 0, none⟩ = .ok none ∧
    matchPort "afu" "plat" [] ⟨"c", "i", false, false, 0, 0, none⟩ =
      .error (.unsatisfiedRequirement "afu" "c" "i" "plat") :=
  ⟨(c4_unsatisfied_requirement "afu" "plat" [] ⟨"c", "i", false, true, 0, 0, none⟩ [] rfl).1 rfl,
   (c4_unsatisfied_requirement "afu" "plat" [] ⟨"c", "i", false, false, 0, 0, none⟩ [] rfl).2.2 rfl⟩

/-- Claim C6: when the compound key matches but exactly one side is a
vector, matching fails with the corresponding VectorMismatch error and
records no Resolved Match for that port. -/
theorem c6_vector_mismatch (afuName platName : String)
    (offered : List (String × OffPort)) (port : ReqPort) (plat : OffPort)
    (hfound : alookup offered (portKey port) = some plat) :
    (port.vector = true → plat.vector = false →
      matchPort afuName platName offered port =
        .error (.vectorMismatchReqVector afuName port.cls port.interface platName)) ∧
    (port.vector = false → plat.vector = true →
      matchPort afuName platName offered port =
        .error (.vectorMismatchPlatVector afuName port.cls port.interface platName)) := by
  constructor <;>
    · intro h1 h2
      unfold matchPort
      rw [hfound]
      simp [h1, h2]

/-- Witness for C6 in both mismatch directions. -/
theorem c6_vector_mismatch_witness :
    matchPort "afu" "plat" [("c/i", ⟨"c", "i", false, 0, 0, none⟩)]
        ⟨"c", "i", true, false, 0, 0, none⟩ =
      .error (.vectorMismatchReqVector "afu" "c" "i" "plat") ∧
    matchPort "afu" "plat" [("c/i", ⟨"c", "i", true, 0, 0, none⟩)]
        ⟨"c", "i", false, false, 0, 0, none⟩ =
      .error (.vectorMismatchPlatVector "afu" "c" "i" "plat") :=
  ⟨(c6_vector_mismatch "afu" "plat" [("c/i", ⟨"c", "i", false, 0, 0, none⟩)]
      ⟨"c", "i", true, false, 0, 0, none⟩ ⟨"c", "i", false, 0, 0, none⟩ rfl).1 rfl rfl,
   (c6_vector_mismatch "afu" "plat" [("c/i", ⟨"c", "i", true, 0, 0, none⟩)]
      ⟨"c", "i", false, false, 0, 0, none⟩ ⟨"c", "i", true, 0, 0, none⟩ rfl).2 rfl rfl⟩

/-- Requirement ports used to show that diagnostics follow input order,
not sorted order. -/
def c5PortA : ReqPort := ⟨"aaa", "ifc", false, false, 0, 0, none⟩

/-- Second port of the C5 counterexample; its class sorts after
`c5PortA`'s. -/
def c5PortB : ReqPort := ⟨"zzz", "ifc", false, false, 0, 0, none⟩

/-- Counterexample to claim C5: with both ports failing and `c5PortB`
first in the input mapping, the reported diagnostic is for `c5PortB`,
although `c5PortA` sorts first; reversing the input order changes the
diagnostic, so it is not independent of input order. -/
theorem c5_counterexample :
    matchAfuPorts "afu" "plat" [] [c5PortB, c5PortA] =
      .error (.unsatisfiedRequirement "afu" "zzz" "ifc" "plat") ∧
    matchAfuPorts "afu" "plat" [] [c5PortA, c5PortB] =
      .error (.unsatisfiedRequirement "afu" "aaa" "ifc" "plat") ∧
    c5PortA.cls < c5PortB.cls := by
  refine ⟨rfl, rfl, ?_⟩
  rw [show c5PortA.cls = "aaa" from rfl, show c5PortB.cls = "zzz" from rfl,
    String.lt_iff_toList_lt]
  decide

/-- Claim C5 as amended: the engine processes requirement ports in the
order they appear in the input mapping's values (Python dict insertion
order); the diagnostic reported is the one for the first failing port in
that order. -/
theorem c5_amended_input_order (afuName platName : String)
    (offered : List (String × OffPort)) (pre : List ReqPort) (port : ReqPort)
    (post : List ReqPort) (e : MatchErr)
    (hpre : ∀ q ∈ pre, ∃ r, matchPort afuName platName offered q = .ok r)
    (hport : matchPort afuName platName offered port = .error e) :
    matchAfuPorts afuName platName offered (pre ++ port :: post) = .error e := by
  induction pre with
  | nil => simp [matchAfuPorts, hport]
  | cons q rest ih =>
    obtain ⟨r, hr⟩ := hpre q (List.mem_cons_self q rest)
    have hrest := ih (fun x hx => hpre x (List.mem_cons_of_mem q hx))
    cases r with
    | none => simp [matchAfuPorts, hr, hrest]
    | some m => simp [matchAfuPorts, hr, hrest]

/-- Witness for the amended C5: an earlier succeeding port does not mask
the first failing port's diagnostic. -/
theorem c5_amended_input_order_witness :
    matchAfuPorts "afu" "plat" [] [⟨"opt", "i", false, true, 0, 0, none⟩,
        ⟨"req", "i", false, false, 0, 0, none⟩] =
      .error (.unsatisfiedRequirement "afu" "req" "i" "plat") :=
  c5_amended_input_order "afu" "plat" [] [⟨"opt", "i", false, true, 0, 0, none⟩]
    ⟨"req", "i", false, false, 0, 0, none⟩ [] _
    (by
      intro q hq
      rw [List.mem_singleton] at hq
      subst hq
      exact ⟨none, rfl⟩)
    rfl

/-- Spec wording of rule a's side condition: the requirement supplies a
`default-entries` lying within the offering's window. -/
def reqDefaultInWindow (port : ReqPort) (plat : OffPort) : Prop :=
  ∃ d, port.defaultEntries = some d ∧ plat.minEntries ≤ d ∧ d ≤ plat.maxEntries

/-- Spec wording of rule b's side condition: the offering supplies a
`default-entries` that is at least the requirement's `min-entries`. -/
def offerDefaultSufficient (port : ReqPort) (plat : OffPort) : Prop :=
  ∃ d, plat.defaultEntries = some d ∧ port.minEntries ≤ d

instance instDecReqDefaultInWindow (port : ReqPort) (plat : OffPort) :
    Decidable (reqDefaultInWindow port plat) :=
  match h : port.defaultEntries with
  | some d =>
    if hd : plat.minEntries ≤ d ∧ d ≤ plat.maxEntries then
      .isTrue ⟨d, h, hd.1, hd.2⟩
    else
      .isFalse (by
        rintro ⟨d1, hd1, h1, h2⟩
        rw [h] at hd1
        injection hd1 with hdd
        subst hdd
        exact hd ⟨h1, h2⟩)
  | none =>
    .isFalse (by
      rintro ⟨d1, hd1, h1, h2⟩
      rw [h] at hd1
      exact Option.noConfusion hd1)

instance instDecOfferDefaultSufficient (port : ReqPort) (plat : OffPort) :
    Decidable (offerDefaultSufficient port plat) :=
  match h : plat.defaultEntries with
  | some d =>
    if hd : port.minEntries ≤ d then
      .isTrue ⟨d, h, hd⟩
    else
      .isFalse (by
        rintro ⟨d1, hd1, h1⟩
        rw [h] at hd1
        injection hd1 with hdd
        subst hdd
        exact hd h1)
  | none =>
    .isFalse (by
      rintro ⟨d1, hd1, h1⟩
      rw [h] at hd1
      exact Option.noConfusion hd1)

/-- The pre-clamp `num-entries` value as the claim words it: a
first-rule-wins chain over the two sentinel-guarded default rules with
the offering's `max-entries` as fallback. -/
def specChainValue (port : ReqPort) (plat : OffPort) : Nat :=
  if port.maxEntries = sysMaxsize ∧ reqDefaultInWindow port plat then
    port.defaultEntries.getD 0
  else if port.maxEntries = sysMaxsize ∧ offerDefaultSufficient port plat then
    plat.defaultEntries.getD 0
  else
    plat.maxEntries

theorem defaultWithin_eq_true (d : Option Nat) (lo hi : Nat) :
    defaultWithin d lo hi = true ↔ ∃ n, d = some n ∧ lo ≤ n ∧ n ≤ hi := by
  cases d <;> simp [defaultWithin]

theorem defaultAtLeast_eq_true (d : Option Nat) (lo : Nat) :
    defaultAtLeast d lo = true ↔ ∃ n, d = some n ∧ lo ≤ n := by
  cases d <;> simp [defaultAtLeast]

theorem pickCondA_iff (port : ReqPort) (plat : OffPort) :
    (port.maxEntries == sysMaxsize &&
        defaultWithin port.defaultEntries plat.minEntries plat.maxEntries) = true ↔
      (port.maxEntries = sysMaxsize ∧ reqDefaultInWindow port plat) := by
  rw [Bool.and_eq_true, beq_iff_eq, defaultWithin_eq_true]
  exact Iff.rfl

theorem pickCondB_iff (port : ReqPort) (plat : OffPort) :
    (port.maxEntries == sysMaxsize &&
        defaultAtLeast plat.defaultEntries port.minEntries) = true ↔
      (port.maxEntries = sysMaxsize ∧ offerDefaultSufficient port plat) := by
  rw [Bool.and_eq_true, beq_iff_eq, defaultAtLeast_eq_true]
  exact Iff.rfl

/-- The sizing chain of the code equals the chain as the claim words it. -/
theorem specChainValue_eq_pickEntries (port : ReqPort) (plat : OffPort) :
    specChainValue port plat = pickEntries port plat := by
  unfold specChainValue pickEntries
  by_cases h1 : port.maxEntries = sysMaxsize ∧ reqDefaultInWindow port plat
  · rw [if_pos h1, if_pos ((pickCondA_iff port plat).mpr h1)]
  · rw [if_neg h1, if_neg (fun hc => h1 ((pickCondA_iff port plat).mp hc))]
    by_cases h2 : port.maxEntries = sysMaxsize ∧ offerDefaultSufficient port plat
    · rw [if_pos h2, if_pos ((pickCondB_iff port plat).mpr h2)]
    · rw [if_neg h2, if_neg (fun hc => h2 ((pickCondB_iff port plat).mp hc))]

/-- The downward clamp of the code is a `min` with the requirement's
`max-entries`. -/
theorem resolvedEntries_eq_min (port : ReqPort) (plat : OffPort) :
    resolvedEntries port plat = min (pickEntries port plat) port.maxEntries := by
  unfold resolvedEntries
  by_cases h : pickEntries port plat > port.maxEntries
  · rw [if_pos h, min_eq_right (Nat.le_of_lt h)]
  · rw [if_neg h, min_eq_left (Nat.le_of_not_lt h)]

/-- A successful vector match returns exactly the clamped chain value. -/
theorem matchVector_ok_eq (afuName platName : String) (port : ReqPort)
    (plat : OffPort) (n : Nat)
    (h : matchVector afuName platName port plat = .ok n) :
    n = resolvedEntries port plat := by
  unfold matchVector at h
  by_cases h1 : resolvedEntries port plat < port.minEntries
  · rw [if_pos h1] at h
    exact Except.noConfusion h
  · rw [if_neg h1] at h
    by_cases h2 : resolvedEntries port plat < plat.minEntries
    · rw [if_pos h2] at h
      exact Except.noConfusion h
    · rw [if_neg h2] at h
      injection h with h3
      exact h3.symm

/-- Claim C1: a successful vector-vector match resolves `num-entries` via
the first-rule-wins chain (requirement default if the sentinel is set and
the default fits the offering window, else offering default if the
sentinel is set and it reaches the requirement minimum, else the
offering's `max-entries`), then reduces it to the requirement's
`max-entries` when it exceeds it. -/
theorem c1_num_entries_chain (afuName platName : String)
    (offered : List (String × OffPort)) (port : ReqPort) (plat : OffPort)
    (m : AfuMatch)
    (hfound : alookup offered (portKey port) = some plat)
    (hrv : port.vector = true) (hpv : plat.vector = true)
    (hok : matchPort afuName platName offered port = .ok (some m)) :
    m.numEntries = some (min (specChainValue port plat) port.maxEntries) := by
  unfold matchPort at hok
  rw [hfound] at hok
  dsimp only at hok
  rw [hrv, hpv] at hok
  simp only [Bool.not_true, Bool.and_false, Bool.false_and, Bool.and_self,
    Bool.true_and, Bool.and_true, Bool.false_eq_true, if_false] at hok
  cases hmv : matchVector afuName platName port plat with
  | error e =>
    rw [hmv] at hok
    simp at hok
  | ok n =>
    rw [hmv] at hok
    rw [Except.ok.injEq, Option.some.injEq] at hok
    have hn := matchVector_ok_eq afuName platName port plat n hmv
    rw [← hok]
    rw [hn, resolvedEntries_eq_min, specChainValue_eq_pickEntries]

/-- Concrete requirement port of the spec's rule-a scenario. -/
def c1Req : ReqPort := ⟨"clk", "std", true, false, 1, sysMaxsize, some 4⟩

/-- Concrete offering port of the spec's rule-a scenario. -/
def c1Off : OffPort := ⟨"clk", "std", true, 2, 8, none⟩

/-- Witness for C1 at the spec's rule-a scenario: the match resolves to 4
entries. -/
theorem c1_num_entries_chain_witness :
    (AfuMatch.mk c1Req c1Off (some 4)).numEntries =
      some (min (specChainValue c1Req c1Off) c1Req.maxEntries) :=
  c1_num_entries_chain "afu" "plat" [("clk/std", c1Off)] c1Req c1Off
    (AfuMatch.mk c1Req c1Off (some 4)) rfl rfl rfl rfl

/-- Requirement port of the C2 counterexample: unbounded maximum, no
default. -/
def c2Req : ReqPort := ⟨"x", "y", true, false, 1, sysMaxsize, none⟩

/-- Offering port of the C2 counterexample: its `default-entries` (10)
exceeds its own `max-entries` (5). -/
def c2Off : OffPort := ⟨"x", "y", true, 1, 5, some 10⟩

/-- Counterexample to claim C2 as stated: with an offering whose
`default-entries` exceeds its own `max-entries`, the vector match
succeeds with N = 10 although N exceeds the offering's `max-entries`
(5), so `offering.min-entries ≤ N ≤ offering.max-entries` fails. -/
theorem c2_counterexample :
    matchVector "afu" "plat" c2Req c2Off = .ok 10 ∧ ¬(10 ≤ c2Off.maxEntries) := by
  constructor
  · rfl
  · decide

/-- Errors of the InsufficientEntries kind (either lower bound failing). -/
def isInsufficientEntries : MatchErr → Prop
  | .insufficientReqMin _ _ _ _ => True
  | .insufficientPlatMin _ _ _ _ => True
  | _ => False

/-- Any error of the vector sizing step is an InsufficientEntries error. -/
theorem matchVector_error_insufficient (afuName platName : String)
    (port : ReqPort) (plat : OffPort) (e : MatchErr)
    (h : matchVector afuName platName port plat = .error e) :
    isInsufficientEntries e := by
  unfold matchVector at h
  by_cases h1 : resolvedEntries port plat < port.minEntries
  · rw [if_pos h1] at h
    injection h with h3
    rw [← h3]
    trivial
  · rw [if_neg h1] at h
    by_cases h2 : resolvedEntries port plat < plat.minEntries
    · rw [if_pos h2] at h
      injection h with h3
      rw [← h3]
      trivial
    · rw [if_neg h2] at h
      exact Except.noConfusion h

/-- When the offering's default does not exceed its own maximum, the
chain value never exceeds the offering's `max-entries`. -/
theorem pickEntries_le_platMax (port : ReqPort) (plat : OffPort)
    (hdef : ∀ d, plat.defaultEntries = some d → d ≤ plat.maxEntries) :
    pickEntries port plat ≤ plat.maxEntries := by
  unfold pickEntries
  by_cases h1 : (port.maxEntries == sysMaxsize &&
      defaultWithin port.defaultEntries plat.minEntries plat.maxEntries) = true
  · rw [if_pos h1]
    obtain ⟨-, hw⟩ := Bool.and_eq_true _ _ |>.mp h1
    obtain ⟨n, hn, -, h2⟩ := (defaultWithin_eq_true _ _ _).mp hw
    rw [hn]
    exact h2
  · rw [if_neg h1]
    by_cases h2 : (port.maxEntries == sysMaxsize &&
        defaultAtLeast plat.defaultEntries port.minEntries) = true
    · rw [if_pos h2]
      obtain ⟨-, hw⟩ := Bool.and_eq_true _ _ |>.mp h2
      obtain ⟨n, hn, -⟩ := (defaultAtLeast_eq_true _ _).mp hw
      rw [hn]
      exact hdef n hn
    · rw [if_neg h2]

/-- Claim C2 as amended: provided the offering's `default-entries`, when
present, does not exceed the offering's own `max-entries`, every
successful vector-vector resolution satisfies all four bounds, and when
no integer satisfies all four bounds the sizing step fails with an
InsufficientEntries error (so no match is recorded). -/
theorem c2_amended_bounds (afuName platName : String) (port : ReqPort)
    (plat : OffPort)
    (hdef : ∀ d, plat.defaultEntries = some d → d ≤ plat.maxEntries) :
    (∀ n, matchVector afuName platName port plat = .ok n →
      port.minEntries ≤ n ∧ n ≤ port.maxEntries ∧
        plat.minEntries ≤ n ∧ n ≤ plat.maxEntries) ∧
    ((¬ ∃ N, port.minEntries ≤ N ∧ N ≤ port.maxEntries ∧
        plat.minEntries ≤ N ∧ N ≤ plat.maxEntries) →
      ∃ e, matchVector afuName platName port plat = .error e ∧
        isInsufficientEntries e) := by
  have hub : resolvedEntries port plat ≤ port.maxEntries := by
    rw [resolvedEntries_eq_min]
    exact min_le_right _ _
  have hup : resolvedEntries port plat ≤ plat.maxEntries := by
    rw [resolvedEntries_eq_min]
    exact le_trans (min_le_left _ _) (pickEntries_le_platMax port plat hdef)
  have hmain : ∀ n, matchVector afuName platName port plat = .ok n →
      port.minEntries ≤ n ∧ n ≤ port.maxEntries ∧
        plat.minEntries ≤ n ∧ n ≤ plat.maxEntries := by
    intro n h
    have hn := matchVector_ok_eq afuName platName port plat n h
    unfold matchVector at h
    by_cases h1 : resolvedEntries port plat < port.minEntries
    · rw [if_pos h1] at h
      exact Except.noConfusion h
    · rw [if_neg h1] at h
      by_cases h2 : resolvedEntries port plat < plat.minEntries
      · rw [if_pos h2] at h
        exact Except.noConfusion h
      · subst hn
        exact ⟨Nat.le_of_not_lt h1, hub, Nat.le_of_not_lt h2, hup⟩
  refine ⟨hmain, ?_⟩
  intro hnone
  cases hmv : matchVector afuName platName port plat with
  | ok n =>
    obtain ⟨hb1, hb2, hb3, hb4⟩ := hmain n hmv
    exact absurd ⟨n, hb1, hb2, hb3, hb4⟩ hnone
  | error e =>
    exact ⟨e, rfl, matchVector_error_insufficient afuName platName port plat e hmv⟩

/-- Witness for the amended C2: the concrete successful match at
min 1 / max sentinel against offering min 2 / max 8 resolves to 8 and
satisfies all four bounds. -/
theorem c2_amended_bounds_witness :
    (1 : Nat) ≤ 8 ∧ (8 : Nat) ≤ sysMaxsize ∧ (2 : Nat) ≤ 8 ∧ (8 : Nat) ≤ 8 :=
  (c2_amended_bounds "afu" "plat" ⟨"x", "y", true, false, 1, sysMaxsize, none⟩
    ⟨"x", "y", true, 2, 8, none⟩ (fun _ h => Option.noConfusion h)).1 8 rfl

/-! ## Theorems about canonicalization -/

theorem alookup_renameKey_old_none {α : Type} (d : List (String × α))
    (old new : String) (h : nodupKeys d) (hne : old ≠ new) :
    alookup (renameKey d old new) old = none := by
  unfold renameKey
  cases hl : alookup d old with
  | none => exact hl
  | some v =>
    rw [alookup_aset_ne _ _ _ _ (Ne.symm hne)]
    exact alookup_aerase_self d old h

theorem alookup_renameKey_other {α : Type} (d : List (String × α))
    (old new k : String) (h1 : k ≠ old) (h2 : k ≠ new) :
    alookup (renameKey d old new) k = alookup d k := by
  unfold renameKey
  cases hl : alookup d old with
  | none => rfl
  | some v =>
    rw [alookup_aset_ne _ _ _ _ (Ne.symm h2), alookup_aerase_ne _ _ _ (Ne.symm h1)]

theorem nodupKeys_renameKey {α : Type} (d : List (String × α))
    (old new : String) (h : nodupKeys d) : nodupKeys (renameKey d old new) := by
  unfold renameKey
  cases alookup d old with
  | none => exact h
  | some v => exact nodupKeys_aset _ _ _ (nodupKeys_aerase _ _ h)

theorem renameKey_id_of_absent {α : Type} (d : List (String × α))
    (old new : String) (h : alookup d old = none) : renameKey d old new = d := by
  unfold renameKey
  rw [h]

/-- A descriptor with neither legacy key is a fixed point of the
cleanup. -/
theorem legacyCleanAfuIfc_id_of_clean {α : Type} (d : List (String × α))
    (hma : alookup d "module-arguments" = none)
    (hname : alookup d "name" = none) : legacyCleanAfuIfc d = d := by
  unfold legacyCleanAfuIfc
  rw [renameKey_id_of_absent _ _ _ hma, renameKey_id_of_absent _ _ _ hname]

/-- Claim C8: the legacy-name normalization is idempotent — applying it
twice to a descriptor with unique keys yields exactly the result of
applying it once. -/
theorem c8_canonicalization_idempotent {α : Type} (d : List (String × α))
    (h : nodupKeys d) :
    legacyCleanAfuIfc (legacyCleanAfuIfc d) = legacyCleanAfuIfc d := by
  have h1 : nodupKeys (renameKey d "module-arguments" "module-ports") :=
    nodupKeys_renameKey d _ _ h
  have hma : alookup (legacyCleanAfuIfc d) "module-arguments" = none := by
    unfold legacyCleanAfuIfc
    rw [alookup_renameKey_other _ _ _ _ (by decide) (by decide)]
    exact alookup_renameKey_old_none d _ _ h (by decide)
  have hname : alookup (legacyCleanAfuIfc d) "name" = none := by
    unfold legacyCleanAfuIfc
    exact alookup_renameKey_old_none _ _ _ h1 (by decide)
  exact legacyCleanAfuIfc_id_of_clean _ hma hname

/-- Witness for C8 on a concrete legacy descriptor carrying both legacy
keys. -/
theorem c8_canonicalization_idempotent_witness :
    legacyCleanAfuIfc (legacyCleanAfuIfc
        [("module-arguments", (1 : Nat)), ("name", 2)]) =
      legacyCleanAfuIfc [("module-arguments", (1 : Nat)), ("name", 2)] :=
  c8_canonicalization_idempotent [("module-arguments", (1 : Nat)), ("name", 2)]
    (by unfold nodupKeys; decide)

/-- Claim C9: when both `module-arguments` and `module-ports` are
present, the cleanup removes `module-arguments` and overwrites
`module-ports` with the legacy value, discarding the original
`module-ports` content. -/
theorem c9_legacy_overwrites_module_ports {α : Type} (d : List (String × α))
    (a b : α) (h : nodupKeys d)
    (ha : alookup d "module-arguments" = some a)
    (_hb : alookup d "module-ports" = some b) :
    alookup (legacyCleanAfuIfc d) "module-arguments" = none ∧
    alookup (legacyCleanAfuIfc d) "module-ports" = some a := by
  constructor
  · unfold legacyCleanAfuIfc
    rw [alookup_renameKey_other _ _ _ _ (by decide) (by decide)]
    exact alookup_renameKey_old_none d _ _ h (by decide)
  · unfold legacyCleanAfuIfc
    rw [alookup_renameKey_other _ _ _ _ (by decide) (by decide)]
    unfold renameKey
    rw [ha]
    exact alookup_aset_self _ _ _

/-- Witness for C9: with `module-arguments ↦ 1` and `module-ports ↦ 2`,
the cleanup leaves `module-ports ↦ 1` and no `module-arguments`. -/
theorem c9_legacy_overwrites_module_ports_witness :
    alookup (legacyCleanAfuIfc [("module-arguments", (1 : Nat)),
        ("module-ports", 2)]) "module-arguments" = none ∧
    alookup (legacyCleanAfuIfc [("module-arguments", (1 : Nat)),
        ("module-ports", 2)]) "module-ports" = some 1 :=
  c9_legacy_overwrites_module_ports _ 1 2 (by unfold nodupKeys; decide) rfl rfl

/-! ## Theorems about the merge engine -/

/-- A record field the override loop accepts: `class` (skipped) or an
allow-listed field name. -/
def legalOrClassField (kv : String × JVal) : Bool :=
  kv.1 == "class" || decide (kv.1 ∈ legal_afu_ifc_update_classes)

/-- The first field of a record that the override loop rejects. -/
def firstIllegalField (r : List (String × JVal)) : Option String :=
  (r.find? (fun kv => !legalOrClassField kv)).map Prod.fst

/-- The effect of the override loop on the port map for a run of
accepted fields: skip `class`, apply the others in place. -/
def applyLegalUpdates (c : JVal) (db : PortMap) :
    List (String × JVal) → PortMap
  | [] => db
  | kv :: rest =>
    if kv.1 = "class" then applyLegalUpdates c db rest
    else applyLegalUpdates c (updatePortField db c kv.1 kv.2) rest

/-- If a record carries a disallowed field, the override loop stops at
the first one, having already applied every accepted field before it. -/
theorem applyOverrideFields_illegal (fname : String) (c : JVal)
    (fields : List (String × JVal)) (db : PortMap) (k : String)
    (hill : (fields.find? (fun kv => !legalOrClassField kv)).map Prod.fst = some k) :
    applyOverrideFields fname c db fields =
      (some (.unauthorizedOverride c k fname),
       applyLegalUpdates c db (fields.takeWhile legalOrClassField)) := by
  induction fields generalizing db with
  | nil => exact Option.noConfusion hill
  | cons kv rest ih =>
    obtain ⟨k0, v0⟩ := kv
    by_cases hc : k0 = "class"
    · have hp : legalOrClassField (k0, v0) = true := by
        simp [legalOrClassField, hc]
      have hill2 : (rest.find? (fun kv => !legalOrClassField kv)).map Prod.fst =
          some k := by
        rwa [List.find?_cons_of_neg _ (by simp [hp])] at hill
      rw [List.takeWhile_cons_of_pos hp]
      simp only [applyOverrideFields, applyLegalUpdates, if_pos hc]
      exact ih db hill2
    · by_cases hk : k0 ∈ legal_afu_ifc_update_classes
      · have hp : legalOrClassField (k0, v0) = true := by
          simp [legalOrClassField, hk]
        have hill2 : (rest.find? (fun kv => !legalOrClassField kv)).map Prod.fst =
            some k := by
          rwa [List.find?_cons_of_neg _ (by simp [hp])] at hill
        rw [List.takeWhile_cons_of_pos hp]
        simp only [applyOverrideFields, applyLegalUpdates, if_neg hc, if_pos hk]
        exact ih (updatePortField db c k0 v0) hill2
      · have hp : legalOrClassField (k0, v0) = false := by
          simp [legalOrClassField, hc, hk]
        have hkk : k = k0 := by
          rw [List.find?_cons_of_pos _ (by simp [hp])] at hill
          have h0 : some k0 = some k := hill
          injection h0 with h1
          exact h1.symm
        subst hkk
        rw [List.takeWhile_cons_of_neg (by simp [hp])]
        simp only [applyOverrideFields, applyLegalUpdates, if_neg hc, if_neg hk]

/-- An override of a present class with a disallowed field: the error
names the class, the first disallowed field and the file, and the port
map has the accepted prefix applied. -/
theorem injectOneChange_first_illegal (fname : String) (db : PortMap)
    (r : FieldRec) (c : JVal) (k : String)
    (hc : alookup r "class" = some c)
    (hdb : (alookup db c).isSome)
    (hill : firstIllegalField r = some k) :
    injectOneChange fname db r =
      (some (.unauthorizedOverride c k fname),
       applyLegalUpdates c db (r.takeWhile legalOrClassField)) := by
  unfold injectOneChange
  rw [hc]
  dsimp only
  obtain ⟨p0, hp0⟩ := Option.isSome_iff_exists.mp hdb
  rw [hp0]
  exact applyOverrideFields_illegal fname c r db k hill

/-- Base port map for the C3 counterexample: one `local-mem` port with
`min-entries` 1. -/
def c3BaseDb : PortMap :=
  [(JVal.jstr "local-mem",
    [("class", JVal.jstr "local-mem"), ("min-entries", JVal.jnat 1)])]

/-- Override record for the C3 counterexample: a legal `min-entries`
field followed by the disallowed field `vector`. -/
def c3Rec : FieldRec :=
  [("class", JVal.jstr "local-mem"), ("min-entries", JVal.jnat 9),
   ("vector", JVal.jbool true)]

/-- Counterexample to claim C3 as stated: the record fails with
UnauthorizedOverride, but the base requirement set is NOT left
unchanged — the allow-listed `min-entries` field iterated before the
offending `vector` field has already been applied. -/
theorem c3_counterexample :
    (injectOneChange "afu.json" c3BaseDb c3Rec).1 =
      some (.unauthorizedOverride (JVal.jstr "local-mem") "vector" "afu.json") ∧
    (injectOneChange "afu.json" c3BaseDb c3Rec).2 ≠ c3BaseDb := by
  constructor
  · rfl
  · decide

/-- Claim C3 as amended: an override record of a present class carrying a
field outside the allow-list fails with an UnauthorizedOverride error
naming the class, the first such field and the file; the allow-listed
fields iterated before the offending one are already applied to the base
set when the failure occurs (the error then aborts the whole run). -/
theorem c3_amended_unauthorized_override (fname : String) (db : PortMap)
    (r : FieldRec) (c : JVal) (k : String)
    (hc : alookup r "class" = some c)
    (hdb : (alookup db c).isSome)
    (hill : firstIllegalField r = some k) :
    injectOneChange fname db r =
      (some (.unauthorizedOverride c k fname),
       applyLegalUpdates c db (r.takeWhile legalOrClassField)) :=
  injectOneChange_first_illegal fname db r c k hc hdb hill

/-- Witness for the amended C3 at the concrete counterexample input. -/
theorem c3_amended_unauthorized_override_witness :
    injectOneChange "afu.json" c3BaseDb c3Rec =
      (some (.unauthorizedOverride (JVal.jstr "local-mem") "vector" "afu.json"),
       applyLegalUpdates (JVal.jstr "local-mem") c3BaseDb
         (c3Rec.takeWhile legalOrClassField)) :=
  c3_amended_unauthorized_override "afu.json" c3BaseDb c3Rec
    (JVal.jstr "local-mem") "vector" rfl rfl rfl

/-- If every field of a record is `class`, allow-listed, or `interface`,
and `interface` occurs, then `interface` is the first disallowed field. -/
theorem firstIllegalField_interface (r : List (String × JVal))
    (hf : ∀ kv ∈ r, kv.1 = "class" ∨ kv.1 ∈ legal_afu_ifc_update_classes ∨
      kv.1 = "interface")
    (hi : "interface" ∈ r.map Prod.fst) :
    firstIllegalField r = some "interface" := by
  induction r with
  | nil => simp at hi
  | cons kv rest ih =>
    obtain ⟨k0, v0⟩ := kv
    by_cases hk : k0 = "interface"
    · subst hk
      have hp : legalOrClassField ("interface", v0) = false := by
        simp [legalOrClassField]
        decide
      unfold firstIllegalField
      rw [List.find?_cons_of_pos _ (by simp [hp])]
      rfl
    · have hk0 := hf (k0, v0) (List.mem_cons_self _ _)
      have hp : legalOrClassField (k0, v0) = true := by
        rcases hk0 with h | h | h
        · simp only [legalOrClassField, Bool.or_eq_true, beq_iff_eq,
            decide_eq_true_eq]
          exact Or.inl h
        · simp only [legalOrClassField, Bool.or_eq_true, beq_iff_eq,
            decide_eq_true_eq]
          exact Or.inr h
        · exact absurd h hk
      have hi2 : "interface" ∈ rest.map Prod.fst := by
        simp only [List.map_cons, List.mem_cons] at hi
        rcases hi with h | h
        · exact absurd h.symm hk
        · exact h
      have hf2 : ∀ kv ∈ rest, kv.1 = "class" ∨
          kv.1 ∈ legal_afu_ifc_update_classes ∨ kv.1 = "interface" :=
        fun kv hkv => hf kv (List.mem_cons_of_mem _ hkv)
      unfold firstIllegalField
      rw [List.find?_cons_of_neg _ (by simp [hp])]
      exact ih hf2 hi2

/-- Claim C10: when two records carry the same class that is absent from
the base set, the first is inserted as a new port; the second is then
treated as an override, and since it carries `interface` (as extensions
must) with all other fields legal, the merge fails with
UnauthorizedOverride on `interface`. -/
theorem c10_duplicate_extension_class (fname : String) (db : PortMap)
    (r1 r2 : FieldRec) (c : JVal)
    (h1c : alookup r1 "class" = some c) (h1db : alookup db c = none)
    (h1i : (alookup r1 "interface").isSome)
    (h2c : alookup r2 "class" = some c)
    (h2f : ∀ kv ∈ r2, kv.1 = "class" ∨ kv.1 ∈ legal_afu_ifc_update_classes ∨
      kv.1 = "interface")
    (h2i : "interface" ∈ r2.map Prod.fst) :
    injectOneChange fname db r1 = (none, aset db c r1) ∧
    (injectAfuIfcChanges fname db [r1, r2]).1 =
      some (.unauthorizedOverride c "interface" fname) := by
  obtain ⟨iv, hiv⟩ := Option.isSome_iff_exists.mp h1i
  have hstep1 : injectOneChange fname db r1 = (none, aset db c r1) := by
    unfold injectOneChange
    rw [h1c]
    dsimp only
    rw [h1db, hiv]
  refine ⟨hstep1, ?_⟩
  have hdb1 : (alookup (aset db c r1) c).isSome := by
    rw [alookup_aset_self]
    rfl
  have hfirst : firstIllegalField r2 = some "interface" :=
    firstIllegalField_interface r2 h2f h2i
  have hstep2 := injectOneChange_first_illegal fname (aset db c r1) r2 c
    "interface" h2c hdb1 hfirst
  simp [injectAfuIfcChanges, hstep1, hstep2]

/-- Witness for C10: two extension records with the same fresh class
`newc`, both carrying `interface`. -/
theorem c10_duplicate_extension_class_witness :
    injectOneChange "afu.json" []
        [("class", JVal.jstr "newc"), ("interface", JVal.jstr "i")] =
      (none, aset [] (JVal.jstr "newc")
        [("class", JVal.jstr "newc"), ("interface", JVal.jstr "i")]) ∧
    (injectAfuIfcChanges "afu.json" []
        [[("class", JVal.jstr "newc"), ("interface", JVal.jstr "i")],
         [("class", JVal.jstr "newc"), ("interface", JVal.jstr "j")]]).1 =
      some (.unauthorizedOverride (JVal.jstr "newc") "interface" "afu.json") :=
  c10_duplicate_extension_class "afu.json" []
    [("class", JVal.jstr "newc"), ("interface", JVal.jstr "i")]
    [("class", JVal.jstr "newc"), ("interface", JVal.jstr "j")]
    (JVal.jstr "newc") rfl rfl rfl rfl (by decide) (by decide)

/-- A record list is a pure extension batch for `db` when every record
carries a class absent from `db` and names an interface. -/
def extensionBatch (db : PortMap) (l : List FieldRec) : Prop :=
  ∀ r ∈ l, ∃ c, classOf r = some c ∧ alookup db c = none ∧
    (alookup r "interface").isSome

/-- Characterization of an extension-only merge: it succeeds, and the
merged map sends a class to the unique record carrying it, leaving every
other class as in the base map. -/
theorem inject_extensions_spec (fname : String) (db : PortMap)
    (l : List FieldRec) (hext : extensionBatch db l)
    (hdist : l.Pairwise (fun r s => classOf r ≠ classOf s)) :
    (injectAfuIfcChanges fname db l).1 = none ∧
    ∀ k, alookup (injectAfuIfcChanges fname db l).2 k =
      match l.find? (fun r => classOf r == some k) with
      | some r => some r
      | none => alookup db k := by
  induction l generalizing db with
  | nil =>
    refine ⟨rfl, fun k => ?_⟩
    simp [injectAfuIfcChanges, List.find?]
  | cons r rest ih =>
    obtain ⟨c, hcls, hdbnone, hintf⟩ := hext r (List.mem_cons_self r rest)
    obtain ⟨iv, hiv⟩ := Option.isSome_iff_exists.mp hintf
    have hstep : injectOneChange fname db r = (none, aset db c r) := by
      unfold injectOneChange
      rw [show alookup r "class" = some c from hcls]
      dsimp only
      rw [hdbnone, hiv]
    have hhead : ∀ s ∈ rest, classOf r ≠ classOf s :=
      (List.pairwise_cons.mp hdist).1
    have hdist2 : rest.Pairwise (fun r s => classOf r ≠ classOf s) :=
      (List.pairwise_cons.mp hdist).2
    have hext2 : extensionBatch (aset db c r) rest := by
      intro s hs
      obtain ⟨c2, hc2, hdb2, hi2⟩ := hext s (List.mem_cons_of_mem r hs)
      refine ⟨c2, hc2, ?_, hi2⟩
      have hne : c ≠ c2 := by
        intro heq
        apply hhead s hs
        rw [hcls, hc2, heq]
      rw [alookup_aset_ne _ _ _ _ hne]
      exact hdb2
    obtain ⟨hok, hlook⟩ := ih (aset db c r) hext2 hdist2
    have hstep2 : injectAfuIfcChanges fname db (r :: rest) =
        injectAfuIfcChanges fname (aset db c r) rest := by
      simp [injectAfuIfcChanges, hstep]
    refine ⟨by rw [hstep2]; exact hok, fun k => ?_⟩
    rw [hstep2, hlook k]
    by_cases hk : c = k
    · subst hk
      have hcons : List.find? (fun s => classOf s == some c) (r :: rest) =
          some r :=
        List.find?_cons_of_pos rest (by simp [hcls])
      rw [hcons]
      have hrest : rest.find? (fun s => classOf s == some c) = none := by
        rw [List.find?_eq_none]
        intro s hs
        simp only [beq_iff_eq]
        intro hceq
        exact hhead s hs (by rw [hcls, hceq])
      rw [hrest]
      exact alookup_aset_self db c r
    · have hcons : List.find? (fun s => classOf s == some k) (r :: rest) =
          List.find? (fun s => classOf s == some k) rest :=
        List.find?_cons_of_neg rest (by simp [hcls]; exact hk)
      rw [hcons]
      cases hfr : rest.find? (fun s => classOf s == some k) with
      | some s => rfl
      | none => exact alookup_aset_ne db c r k hk


/-- `find?` is permutation-invariant when at most one element satisfies
the predicate. -/
theorem find?_perm_of_unique {α : Type} {p : α → Bool} {l l2 : List α}
    (hperm : l.Perm l2)
    (huniq : ∀ a ∈ l, ∀ b ∈ l, p a = true → p b = true → a = b) :
    l.find? p = l2.find? p := by
  cases hfind : l.find? p with
  | some r =>
    have hrl : r ∈ l := List.mem_of_find?_eq_some hfind
    have hpr : p r = true := List.find?_some hfind
    cases hfind2 : l2.find? p with
    | some r2 =>
      have hrl2 : r2 ∈ l := hperm.symm.subset (List.mem_of_find?_eq_some hfind2)
      have hpr2 : p r2 = true := List.find?_some hfind2
      rw [huniq r hrl r2 hrl2 hpr hpr2]
    | none =>
      have := List.find?_eq_none.mp hfind2 r (hperm.subset hrl)
      exact absurd hpr this
  | none =>
    cases hfind2 : l2.find? p with
    | some r2 =>
      have hmem : r2 ∈ l := hperm.symm.subset (List.mem_of_find?_eq_some hfind2)
      have := List.find?_eq_none.mp hfind r2 hmem
      exact absurd (List.find?_some hfind2) this
    | none => rfl

/-- In a class-pairwise-distinct record list, at most one record carries
any given class. -/
theorem unique_class_record (l : List FieldRec)
    (hdist : l.Pairwise (fun r s => classOf r ≠ classOf s)) (k : JVal) :
    ∀ a ∈ l, ∀ b ∈ l, (classOf a == some k) = true →
      (classOf b == some k) = true → a = b := by
  intro a ha b hb hpa hpb
  rw [beq_iff_eq] at hpa hpb
  by_contra hne
  have hsymm : Symmetric (fun r s : FieldRec => classOf r ≠ classOf s) :=
    fun x y h heq => h heq.symm
  exact List.Pairwise.forall hsymm hdist ha hb hne (by rw [hpa, hpb])

/-- An override record setting a single allow-listed field `k` of class
`c` to value `v`. -/
def ovRec (c : JVal) (k : String) (v : JVal) : FieldRec :=
  [("class", c), (k, v)]

theorem alookup_updatePortField_self (db : PortMap) (c : JVal) (k : String)
    (v : JVal) (p0 : FieldRec) (hdb : alookup db c = some p0) :
    alookup (updatePortField db c k v) c = some (aset p0 k v) := by
  unfold updatePortField
  rw [hdb]
  exact alookup_aset_self _ _ _

theorem injectOneChange_ovRec (fname : String) (db : PortMap) (c : JVal)
    (k : String) (v : JVal) (p0 : FieldRec)
    (hdb : alookup db c = some p0)
    (hk : k ∈ legal_afu_ifc_update_classes) (hkc : k ≠ "class") :
    injectOneChange fname db (ovRec c k v) =
      (none, updatePortField db c k v) := by
  unfold injectOneChange ovRec
  rw [show alookup [("class", c), (k, v)] "class" = some c from rfl]
  dsimp only
  rw [hdb]
  dsimp only
  unfold applyOverrideFields
  rw [if_pos rfl]
  unfold applyOverrideFields
  rw [if_neg hkc, if_pos hk]
  rfl

/-- Claim C7: (1) applying a batch of extensions with pairwise distinct
fresh classes is order-independent — any permutation produces the same
merged mapping; (2) two overrides of the same allow-listed field on the
same class are order-dependent — the field ends with the value of the
last record that set it. -/
theorem c7_merge_order_properties :
    (∀ (fname : String) (db : PortMap) (l l2 : List FieldRec),
      l.Perm l2 → extensionBatch db l →
      l.Pairwise (fun r s => classOf r ≠ classOf s) →
      ∀ k, alookup (injectAfuIfcChanges fname db l).2 k =
        alookup (injectAfuIfcChanges fname db l2).2 k) ∧
    (∀ (fname : String) (db : PortMap) (c : JVal) (p0 : FieldRec)
      (k : String) (v1 v2 : JVal),
      alookup db c = some p0 → k ∈ legal_afu_ifc_update_classes →
      (alookup (injectAfuIfcChanges fname db [ovRec c k v1, ovRec c k v2]).2
          c).bind (fun p => alookup p k) = some v2) := by
  constructor
  · intro fname db l l2 hperm hext hdist k
    have hext2 : extensionBatch db l2 :=
      fun r hr => hext r (hperm.symm.subset hr)
    have hdist2 : l2.Pairwise (fun r s => classOf r ≠ classOf s) :=
      (hperm.pairwise_iff (fun h heq => h heq.symm)).mp hdist
    obtain ⟨-, hl⟩ := inject_extensions_spec fname db l hext hdist
    obtain ⟨-, hl2⟩ := inject_extensions_spec fname db l2 hext2 hdist2
    rw [hl k, hl2 k,
      find?_perm_of_unique hperm (unique_class_record l hdist k)]
  · intro fname db c p0 k v1 v2 hdb hk
    have hkc : k ≠ "class" := by
      intro he
      subst he
      revert hk
      decide
    have hs1 := injectOneChange_ovRec fname db c k v1 p0 hdb hk hkc
    have hdb1 := alookup_updatePortField_self db c k v1 p0 hdb
    have hs2 := injectOneChange_ovRec fname (updatePortField db c k v1) c k v2
      (aset p0 k v1) hdb1 hk hkc
    have hdb2 := alookup_updatePortField_self (updatePortField db c k v1) c k
      v2 (aset p0 k v1) hdb1
    have hrun : injectAfuIfcChanges fname db [ovRec c k v1, ovRec c k v2] =
        (none, updatePortField (updatePortField db c k v1) c k v2) := by
      simp [injectAfuIfcChanges, hs1, hs2]
    rw [hrun]
    dsimp only
    rw [hdb2]
    dsimp only [Option.bind]
    exact alookup_aset_self _ _ _

/-- First extension record of the C7 witness (fresh class `a`). -/
def c7ExtA : FieldRec := [("class", JVal.jstr "a"), ("interface", JVal.jstr "i")]

/-- Second extension record of the C7 witness (fresh class `b`). -/
def c7ExtB : FieldRec := [("class", JVal.jstr "b"), ("interface", JVal.jstr "j")]

/-- Base port map of the C7 last-wins witness. -/
def c7BaseDb : PortMap := [(JVal.jstr "mem", [("class", JVal.jstr "mem")])]

/-- Witness for C7: the two extension orders agree at class `a`, and two
overrides of `min-entries` end with the second value. -/
theorem c7_merge_order_properties_witness :
    alookup (injectAfuIfcChanges "f" [] [c7ExtA, c7ExtB]).2 (JVal.jstr "a") =
      alookup (injectAfuIfcChanges "f" [] [c7ExtB, c7ExtA]).2 (JVal.jstr "a") ∧
    (alookup (injectAfuIfcChanges "f" c7BaseDb
        [ovRec (JVal.jstr "mem") "min-entries" (JVal.jnat 1),
         ovRec (JVal.jstr "mem") "min-entries" (JVal.jnat 2)]).2
        (JVal.jstr "mem")).bind (fun p => alookup p "min-entries") =
      some (JVal.jnat 2) := by
  constructor
  · exact c7_merge_order_properties.1 "f" [] [c7ExtA, c7ExtB] [c7ExtB, c7ExtA]
      (List.Perm.swap c7ExtB c7ExtA [])
      (by
        intro r hr
        simp only [List.mem_cons, List.not_mem_nil, or_false] at hr
        rcases hr with rfl | rfl
        · exact ⟨JVal.jstr "a", rfl, rfl, rfl⟩
        · exact ⟨JVal.jstr "b", rfl, rfl, rfl⟩)
      (by
        unfold c7ExtA c7ExtB classOf
        decide)
      (JVal.jstr "a")
  · exact c7_merge_order_properties.2 "f" c7BaseDb (JVal.jstr "mem")
      [("class", JVal.jstr "mem")] "min-entries" (JVal.jnat 1) (JVal.jnat 2)
      rfl (by decide)

end AfuPlatformConfig
